import Mathlib

/-!
# Shallow embedding of the superEnalotto-sestine generation core

This file embeds the combinatorial generation and probability core of the
repository (src/lib/rng.ts, src/lib/sestine.ts, and the generation /
probability functions of src/App.tsx) into Lean 4 and proves the spec's
claims about it.

Modelling conventions:
* JS 32-bit integer coercions (`| 0`, `>>> 0`, `^`, `<<`, `>>>`, `Math.imul`)
  are modelled over `ℤ`/`ℕ` with explicit reduction mod 2^32.  All JS number
  values reached by the translated code are integers of magnitude < 2^53,
  where double arithmetic is exact, so `ℤ` arithmetic is faithful.
* An RNG (`() => number` returning values in `[0,1)`) is modelled as an
  infinite stream `ℕ → ℕ` of the 32-bit numerators `v` of the produced
  values `v / 2^32`, consumed at an explicit position `pos`.
* The unbounded recursion of `generateRandomSestinaWithConstraints`
  (the retry on a failed `mustIncludeAnyOf` check) is modelled with an
  explicit retry fuel; the result `none` means the source recursion has not
  produced an answer within that retry budget.  The two bounded loops of the
  source (the fill-loop guard 100000 and the per-slot nonce guard 50000)
  are modelled exactly, with their bounds, as `Except` errors.
* JS `Array.prototype.sort` with an ascending numeric comparator (used on
  lists of distinct numbers) is modelled by `List.insertionSort (· ≤ ·)`.
* JS exceptions are modelled with `Except`; since a thrown exception does
  not undo the in-place mutation of the `existingKeys` set passed to
  `generateUniqueSestine`, the error outcome of that function carries the
  mutated key set, exactly as the caller observes it.
-/

/-! ## src/lib/rng.ts -/

/-- JS `ToUint32`: reduce an integer to its unsigned 32-bit value. -/
def toUint32 (x : ℤ) : ℕ := (x % 4294967296).toNat

/-- JS `ToInt32`: reduce an integer to its signed 32-bit value. -/
def toInt32 (x : ℤ) : ℤ := (x + 2147483648) % 4294967296 - 2147483648

/-- JS `a ^ b` on numbers: bitwise xor after `ToInt32` coercion. -/
def xor32 (a b : ℤ) : ℤ := toInt32 (Int.ofNat (Nat.xor (toUint32 a) (toUint32 b)))

/-- JS `a | b` on numbers: bitwise or after `ToInt32` coercion. -/
def or32 (a b : ℤ) : ℤ := toInt32 (Int.ofNat (Nat.lor (toUint32 a) (toUint32 b)))

/-- JS `a << s` on numbers: signed 32-bit left shift. -/
def shl32 (a : ℤ) (s : ℕ) : ℤ := toInt32 (Int.ofNat (toUint32 a <<< s))

/-- JS `a >>> s` on numbers: unsigned 32-bit right shift. -/
def shrU (a : ℤ) (s : ℕ) : ℕ := toUint32 a >>> s

/-- JS `Math.imul(a, b)`: 32-bit integer multiplication. -/
def imul32 (a b : ℤ) : ℤ := toInt32 (a * b)

/-- `xfnv1a`, hash accumulation part: FNV-1a over the UTF-16 code units of
the seed string (`h ^= charCodeAt; h = Math.imul(h, 16777619)`). -/
def xfnv1aInit (s : String) : ℤ :=
  s.data.foldl (fun h c => imul32 (xor32 h (Int.ofNat c.toNat)) 16777619) 2166136261

/-- One call of the closure returned by `xfnv1a`: the five scrambling
statements `h += h << 13; h ^= h >>> 7; h += h << 3; h ^= h >>> 17;
h += h << 5` (the plain `+=` additions are exact double additions). -/
def xfnv1aStep (h : ℤ) : ℤ :=
  let h1 := h + shl32 h 13
  let h2 := xor32 h1 (Int.ofNat (shrU h1 7))
  let h3 := h2 + shl32 h2 3
  let h4 := xor32 h3 (Int.ofNat (shrU h3 17))
  h4 + shl32 h4 5

/-- `rngFromSeed`, first half: `const n = Math.floor(h() * 2 ** 32) >>> 0`,
the 32-bit numerator produced by one call of the `xfnv1a` closure. -/
def seedNumFromString (s : String) : ℕ := toUint32 (xfnv1aStep (xfnv1aInit s))

/-- `mulberry32` state update: `a = (a + 0x6D2B79F5) | 0` (after `a |= 0`). -/
def mulberryNext (a : ℤ) : ℤ := toInt32 (toInt32 a + 0x6D2B79F5)

/-- `mulberry32` output extraction from the updated state `a`:
`t = Math.imul(a ^ (a >>> 15), 1 | a); t ^= t + Math.imul(t ^ (t >>> 7), 61 | t);
return ((t ^ (t >>> 14)) >>> 0) / 4294967296` — we return the numerator. -/
def mulberryOut (a : ℤ) : ℕ :=
  let t0 := imul32 (xor32 a (Int.ofNat (shrU a 15))) (or32 1 a)
  let t1 := xor32 t0 (t0 + imul32 (xor32 t0 (Int.ofNat (shrU t0 7))) (or32 61 t0))
  toUint32 (xor32 t1 (Int.ofNat (shrU t1 14)))

/-- The `mulberry32` internal state after `i` calls, starting from
`a = seed >>> 0`. -/
def mulberryState (seed : ℕ) : ℕ → ℤ
  | 0 => Int.ofNat (seed % 4294967296)
  | i + 1 => mulberryNext (mulberryState seed i)

/-- The stream of 32-bit numerators produced by `mulberry32(seed)`:
element `i` is the numerator of the `(i+1)`-th call of the closure. -/
def mulberryStream (seed : ℕ) (i : ℕ) : ℕ := mulberryOut (mulberryState seed (i + 1))

/-- `rngFromSeed(seed)`: hash the string, draw one value from the hash
closure to obtain a 32-bit number `n`, and return `mulberry32(n)`. -/
def rngFromSeedStream (s : String) : ℕ → ℕ := mulberryStream (seedNumFromString s)

/-! ## src/lib/sestine.ts -/

/-- `Constraints` from sestine.ts: `exclude` (never present), `mustInclude`
(all must be present), `mustIncludeAnyOf` (at least one must be present,
empty = no restriction). -/
structure Constraints where
  exclude : List ℕ
  mustInclude : List ℕ
  mustIncludeAnyOf : List ℕ
deriving DecidableEq, Repr

/-- `normalizeNums`: `[...nums].sort((a, b) => a - b)` — ascending numeric
sort (the source only sorts lists of distinct numbers, on which every
comparison sort agrees with `insertionSort`). -/
def normalizeNums (nums : List ℕ) : List ℕ := List.insertionSort (· ≤ ·) nums

/-- `sestinaKey`: `normalizeNums(nums).join("-")`. -/
def sestinaKey (nums : List ℕ) : String :=
  String.intercalate "-" ((normalizeNums nums).map toString)

/-- `rngInt(rng, min, max) = Math.floor(rng() * (max - min + 1)) + min`,
where `rng()` is `v / 2^32` for the 32-bit numerator `v` drawn from the
stream; for `v < 2^32` and small ranges the floor computes exactly to
integer division. -/
def rngInt (v mn mx : ℕ) : ℕ := v * (mx - mn + 1) / 4294967296 + mn

/-- `isValidSestina(nums, c)`: false on any excluded member, false on any
missing mandatory member, and false when `mustIncludeAnyOf` is non-empty
and disjoint from `nums`. -/
def isValidSestina (nums : List ℕ) (c : Constraints) : Bool :=
  (c.exclude.all fun ex => !(nums.contains ex)) &&
  (c.mustInclude.all fun mi => nums.contains mi) &&
  (c.mustIncludeAnyOf.isEmpty || c.mustIncludeAnyOf.any fun x => nums.contains x)

/-- The working `Set` of picked numbers is modelled as its insertion-ordered,
duplicate-free listing (`JS Set` iterates in insertion order); `add` is
modelled by `setAdd`, which appends when the element is new. -/
def setAdd (s : List ℕ) (n : ℕ) : List ℕ := if s.contains n then s else s ++ [n]

/-- The working set seeded with `mustInclude`
(`for (const n of constraints.mustInclude) picked.add(n)`). -/
def mustIncludeSet (c : Constraints) : List ℕ :=
  c.mustInclude.foldl setAdd []

/-- Decidable equality of `Except` outcomes, for concrete evaluations. -/
instance {ε α : Type} [DecidableEq ε] [DecidableEq α] : DecidableEq (Except ε α) := fun x y =>
  match x, y with
  | .ok a, .ok b => if h : a = b then isTrue (by rw [h]) else isFalse (by simp [h])
  | .error a, .error b => if h : a = b then isTrue (by rw [h]) else isFalse (by simp [h])
  | .ok _, .error _ => isFalse (by simp)
  | .error _, .ok _ => isFalse (by simp)

/-- Errors thrown by the generation core, one per `throw` site. -/
inductive GenError where
  /-- "Vincolo impossibile: troppi numeri obbligatori (>6)." -/
  | impossibleConstraint
  /-- "Impossibile soddisfare i vincoli (loop)." -/
  | generationExhausted
  /-- "Impossibile generare sestine uniche: troppi duplicati (limite nonce)." -/
  | uniquenessExhausted
deriving DecidableEq, Repr

/-- The fill loop of `generateRandomSestinaWithConstraints`: while fewer
than 6 numbers are picked, draw `rngInt(rng, 1, 90)`, skipping draws that
are already picked or excluded.  `fuel` is the remaining iteration budget
of the source's `guard` counter (100000 draws in total); exhausting it is
the `GenerationExhausted` throw.  Returns the picked set and the stream
position after the loop. -/
def fillLoop (stream : ℕ → ℕ) (c : Constraints) :
    ℕ → ℕ → List ℕ → Except GenError (List ℕ × ℕ)
  | fuel, pos, picked =>
    if 6 ≤ picked.length then .ok (picked, pos)
    else
      match fuel with
      | 0 => .error .generationExhausted
      | fuel + 1 =>
        let x := rngInt (stream pos) 1 90
        if picked.contains x then fillLoop stream c fuel (pos + 1) picked
        else if c.exclude.contains x then fillLoop stream c fuel (pos + 1) picked
        else fillLoop stream c fuel (pos + 1) (picked ++ [x])

/-- `generateRandomSestinaWithConstraints(rng, constraints)`.  Seeds the
working set with `mustInclude`; throws `ImpossibleConstraint` when more
than 6 numbers are mandatory; fills up to 6 numbers with `fillLoop`; sorts
(`normalizeNums([...picked])`);
re-checks the full validator and, on failure, discards the sample and
retries on the same stream (an *unbounded* recursion in the source,
modelled by the retry fuel `rfuel`: `none` = still retrying when the
budget runs out). -/
def generateRandomSestinaWithConstraints (stream : ℕ → ℕ) (c : Constraints) :
    ℕ → ℕ → Option (Except GenError (List ℕ × ℕ))
  | rfuel, pos =>
    let picked0 := mustIncludeSet c
    if 6 < picked0.length then some (.error .impossibleConstraint)
    else
      match fillLoop stream c 100000 pos picked0 with
      | .error e => some (.error e)
      | .ok (picked, pos') =>
        let nums := normalizeNums picked
        if isValidSestina nums c then some (.ok (nums, pos'))
        else
          match rfuel with
          | 0 => none
          | rfuel + 1 => generateRandomSestinaWithConstraints stream c rfuel pos'

/-- `Sestina` record (creation time in milliseconds; `meta` flattened). -/
structure Sestina where
  nums : List ℕ
  key : String
  createdAt : ℕ
  frozen : Bool
  seed : Option String
  attemptNonce : Option ℕ
deriving DecidableEq, Repr

/-- The inner `while (!ok)` loop of `generateUniqueSestine` for one slot:
derive a fresh RNG from `factory nonce`, sample one sestina, and accept it
unless its key is already present, in which case increment the nonce and
retry.  `fuel` is the remaining nonce budget (50001 attempts, at nonces
0..50000, before the `UniquenessExhausted` throw).  On success returns the
sorted numbers, the key, the accepted nonce and the key set with the new
key inserted. -/
def slotLoop (factory : ℕ → ℕ → ℕ) (c : Constraints) (rfuel : ℕ) :
    ℕ → ℕ → Finset String → Option (Except GenError (List ℕ × String × ℕ × Finset String))
  | 0, _, _ => some (.error .uniquenessExhausted)
  | fuel + 1, nonce, keys =>
    match generateRandomSestinaWithConstraints (factory nonce) c rfuel 0 with
    | none => none
    | some (.error e) => some (.error e)
    | some (.ok (nums, _)) =>
      let key := sestinaKey nums
      if key ∈ keys then slotLoop factory c rfuel fuel (nonce + 1) keys
      else some (.ok (nums, key, nonce, insert key keys))

/-- Recursion of `generateUniqueSestine` over the remaining slot count
(`slots`), with `i` the current slot index.  The `existingKeys` set is
mutated in place by the source, so both the success and the error outcome
carry the key set as the caller observes it afterwards. -/
def genAux (factory : ℕ → ℕ → ℕ) (c : Constraints) (rfuel : ℕ)
    (seedOpt : Option String) (now : ℕ) :
    ℕ → ℕ → Finset String → Option (Except (GenError × Finset String) (List Sestina × Finset String))
  | 0, _, keys => some (.ok ([], keys))
  | slots + 1, i, keys =>
    match slotLoop factory c rfuel 50001 0 keys with
    | none => none
    | some (.error e) => some (.error (e, keys))
    | some (.ok (nums, key, nonce, keys')) =>
      let s : Sestina :=
        { nums := nums, key := key, createdAt := now + i, frozen := false,
          seed := seedOpt, attemptNonce := some nonce }
      match genAux factory c rfuel seedOpt now slots (i + 1) keys' with
      | none => none
      | some (.error e) => some (.error e)
      | some (.ok (rest, keysF)) => some (.ok (s :: rest, keysF))

/-- `generateUniqueSestine(count, existingKeys, rngFactory, constraints,
options)`: produce `count` sestine in slot order, pushing each accepted key
into `existingKeys` as it goes. -/
def generateUniqueSestine (count : ℕ) (existingKeys : Finset String)
    (factory : ℕ → ℕ → ℕ) (c : Constraints) (rfuel : ℕ)
    (seedOpt : Option String) (now : ℕ) :
    Option (Except (GenError × Finset String) (List Sestina × Finset String)) :=
  genAux factory c rfuel seedOpt now count 0 existingKeys

/-! ## src/App.tsx — probability engine -/

/-- One iteration of the `nCk` loop, at 0-based counter `j` (the source's
`i = j + 1`): `res = (res * (n - (k - i))) / i`; JS number arithmetic on
these inputs is exact and is modelled in `ℚ`. -/
def nCkStep (n k : ℕ) (res : ℚ) (j : ℕ) : ℚ :=
  res * ((n : ℚ) - ((k : ℚ) - (j + 1))) / (j + 1)

/-- The loop of `nCk` after the symmetry replacement, with `k` the (already
reduced) loop bound: `for (let i = 1; i <= k; i++) res = (res * (n - (k - i))) / i`. -/
def nCkLoop (n k : ℕ) : ℚ :=
  (List.range k).foldl (nCkStep n k) 1

/-- `nCk(n, k)`: 0 when `k > n` (the source's `k < 0` test is vacuous for
`ℕ` arguments), otherwise the iterative multiplicative formula after
`k = Math.min(k, n - k)`. -/
def nCk (n k : ℕ) : ℚ :=
  if k > n then 0 else nCkLoop n (min k (n - k))

/-- `singleTicketExactMatchProb(r) = nCk(6, r) * nCk(84, 6 - r) / nCk(90, 6)`
(the call sites use `r ∈ [0,6]`, where ℕ subtraction agrees with JS). -/
def singleTicketExactMatchProb (r : ℕ) : ℚ :=
  nCk 6 r * nCk 84 (6 - r) / nCk 90 6

/-- The `pExact` array of `atLeastDistribution`:
`Array.from({length: 7}, (_, r) => singleTicketExactMatchProb(r))`. -/
def pExactList : List ℚ := (List.range 7).map (fun r => singleTicketExactMatchProb r)

/-- The `cdf` array of `atLeastDistribution`: the running cumulative sums
`acc += pExact[r]; cdf[r] = acc` of `pExactList`, built in loop order. -/
def cdfList : List ℚ :=
  (pExactList.foldl (fun (st : ℚ × List ℚ) p => (st.1 + p, st.2 ++ [st.1 + p])) (0, [])).2

/-- `atLeastDistribution(kTickets)`: one entry `(m, 1 - cdf[m-1] ^ kTickets)`
per `m = 1..6`, sorted by the comparator `(a, b) => b.m - a.m`, i.e.
descending in `m`. -/
def atLeastDistribution (kTickets : ℕ) : List (ℕ × ℚ) :=
  let out := (List.range 6).map (fun i => (i + 1, 1 - (cdfList.getD i 0) ^ kTickets))
  List.insertionSort (fun a b => b.1 ≤ a.1) out

/-! ## src/App.tsx — application state and batch generation -/

/-- storage.ts `Group` (a collection), as far as the generation core
observes it: its identity and its ordered combination list (named `SGroup`
here only because Mathlib already has an algebraic `Group`). -/
structure SGroup where
  id : String
  sestine : List Sestina
deriving DecidableEq, Repr

/-- The application state observed and updated by the batch operations. -/
structure AppState where
  groups : List SGroup
deriving DecidableEq, Repr

/-- `globalKeys`: the set of all keys over every group (the Ledger). -/
def globalKeys (st : AppState) : Finset String :=
  st.groups.foldl (fun ks g => g.sestine.foldl (fun ks s => insert s.key ks) ks) ∅

/-- `totalSestine`: `state.groups.reduce((acc, g) => acc + g.sestine.length, 0)`. -/
def totalSestine (st : AppState) : ℕ :=
  st.groups.foldl (fun acc g => acc + g.sestine.length) 0

/-- `CHUNK = n >= 5000 ? 250 : n >= 1000 ? 200 : n >= 200 ? 100 : 50`. -/
def chunkSize (n : ℕ) : ℕ :=
  if 5000 ≤ n then 250 else if 1000 ≤ n then 200 else if 200 ≤ n then 100 else 50

/-- The template literal `` `${seed}::${gid}::${ts}::${nn}` `` used to derive
the per-slot RNG seed in seeded mode. -/
def seedString (seed gid : String) (ts nn : ℕ) : String :=
  seed ++ "::" ++ gid ++ "::" ++ toString ts ++ "::" ++ toString nn

/-- Outcome of the chunked batch loop of `generateForSelectedGroup`. -/
inductive BatchOutcome where
  /-- `if (!selectedGroup) return;` — nothing happened -/
  | noGroup
  /-- the loop ran to completion and the commit `setState` ran -/
  | committed (generated : List Sestina)
  /-- the cancellation flag was observed at the start of chunk `chunkIdx` -/
  | abortedAt (chunkIdx : ℕ)
  /-- a generation error was thrown and caught (`alert`), no commit -/
  | failed (e : GenError)
  /-- the sampler recursion exceeded the modelling fuel (source diverges) -/
  | diverged
  /-- artificial: the chunk-iteration fuel ran out (unreachable from
  `generateForSelectedGroup`, which supplies fuel `n`) -/
  | fuelOut
deriving DecidableEq, Repr

/-- The `while (produced < n)` loop of `generateForSelectedGroup`: check the
cancellation flag at the chunk boundary, take `min(CHUNK, n - produced)`,
allocate the chunk against the (locally copied) key set, accumulate, and
advance `produced` and `nonceBase += take * 3`. -/
def chunkLoop (abortFlag : ℕ → Bool) (factory : ℕ → ℕ → ℕ → ℕ) (c : Constraints)
    (rfuel : ℕ) (seedOpt : Option String) (nowF : ℕ → ℕ) (n : ℕ) :
    ℕ → ℕ → ℕ → ℕ → Finset String → List Sestina → BatchOutcome
  | 0, _, _, _, _, _ => .fuelOut
  | fuel + 1, chunkIdx, produced, nonceBase, keys, acc =>
    if produced < n then
      if abortFlag chunkIdx then .abortedAt chunkIdx
      else
        let take := min (chunkSize n) (n - produced)
        match generateUniqueSestine take keys (factory nonceBase) c rfuel seedOpt (nowF chunkIdx) with
        | none => .diverged
        | some (.error (e, _)) => .failed e
        | some (.ok (out, keys')) =>
          chunkLoop abortFlag factory c rfuel seedOpt nowF n fuel (chunkIdx + 1)
            (produced + out.length) (nonceBase + take * 3) keys' (acc ++ out)
    else .committed acc

/-- `generateForSelectedGroup`, parametric in the rng factory (which the
source builds from the seed settings): bail out when the group does not
exist; `n = max(1, countToGenerate)`; run the chunk loop on a fresh copy of
`globalKeys`; commit `[...allGenerated, ...g.sestine]` into the selected
group only when the loop completed without cancellation, otherwise leave
the state untouched (the `catch`/abort paths never call `setState`). -/
def generateForSelectedGroup (st : AppState) (gid : String) (countReq : ℕ)
    (factory : ℕ → ℕ → ℕ → ℕ) (seedOpt : Option String) (c : Constraints)
    (rfuel : ℕ) (abortFlag : ℕ → Bool) (nowF : ℕ → ℕ) : AppState × BatchOutcome :=
  match st.groups.find? (fun g => g.id == gid) with
  | none => (st, .noGroup)
  | some _ =>
    let n := max 1 countReq
    let keys := globalKeys st
    match chunkLoop abortFlag factory c rfuel seedOpt nowF n n 0 0 0 keys [] with
    | .committed gen =>
      ({ groups := st.groups.map fun g =>
           if g.id == gid then { g with sestine := gen ++ g.sestine } else g },
       .committed gen)
    | o => (st, o)

/-- The seeded-mode instantiation: the per-chunk factory is
`(nonce) => rngFromSeed(`...`)` with `nn = nonceBase + nonce` and
`ts = totalSestine` of the pre-call state. -/
def generateForSelectedGroupSeeded (st : AppState) (gid : String) (countReq : ℕ)
    (seed : String) (c : Constraints) (rfuel : ℕ) (abortFlag : ℕ → Bool)
    (nowF : ℕ → ℕ) : AppState × BatchOutcome :=
  generateForSelectedGroup st gid countReq
    (fun nonceBase nonce => rngFromSeedStream (seedString seed gid (totalSestine st) (nonceBase + nonce)))
    (some seed) c rfuel abortFlag nowF

/-- The Ledger snapshot used by `regenerateNonFrozenInGroup`: a fresh copy
of `globalKeys` with the key of every non-frozen sestina of the target
group deleted before sampling. -/
def regenSnapshotKeys (st : AppState) (g : SGroup) : Finset String :=
  (g.sestine.filter fun s => !s.frozen).foldl (fun ks s => ks.erase s.key) (globalKeys st)

/-- `regenerateNonFrozenInGroup(groupId)`: keep the frozen sestine, release
the keys of the non-frozen ones from the snapshot, allocate that many
replacements, and commit `[...frozen, ...regenerated]`; on a thrown
generation error no `setState` runs and the state is unchanged. -/
def regenerateNonFrozenInGroup (st : AppState) (gid : String)
    (factory : ℕ → ℕ → ℕ) (c : Constraints) (rfuel : ℕ)
    (seedOpt : Option String) (now : ℕ) : AppState :=
  match st.groups.find? (fun g => g.id == gid) with
  | none => st
  | some g =>
    let frozen := g.sestine.filter fun s => s.frozen
    let toRegenCount := g.sestine.length - frozen.length
    if toRegenCount = 0 then st
    else
      match generateUniqueSestine toRegenCount (regenSnapshotKeys st g)
              (fun nonce => factory nonce) c rfuel seedOpt now with
      | some (.ok (out, _)) =>
        { groups := st.groups.map fun x =>
            if x.id == gid then { x with sestine := frozen ++ out } else x }
      | _ => st

/-! ## Reference stream and basic bounds -/

/-- A concrete reference stream for closed-instance theorems: position `i`
holds the numerator that `rngInt (· , 1, 90)` maps to the number
`(i % 90) + 1`, so the stream cycles through all of 1..90. -/
def testStream (i : ℕ) : ℕ := (i % 90) * 47721860

theorem testStream_lt (i : ℕ) : testStream i < 4294967296 := by
  have h : i % 90 < 90 := Nat.mod_lt _ (by norm_num)
  calc testStream i = (i % 90) * 47721860 := rfl
    _ ≤ 89 * 47721860 := Nat.mul_le_mul_right _ (by omega)
    _ < 4294967296 := by norm_num

theorem toUint32_lt (x : ℤ) : toUint32 x < 4294967296 := by
  have h1 : x % 4294967296 < 4294967296 := Int.emod_lt_of_pos x (by norm_num)
  have h2 : 0 ≤ x % 4294967296 := Int.emod_nonneg x (by norm_num)
  unfold toUint32
  omega

theorem mulberryStream_lt (seed i : ℕ) : mulberryStream seed i < 4294967296 := by
  unfold mulberryStream mulberryOut
  exact toUint32_lt _

theorem rngFromSeedStream_lt (s : String) (i : ℕ) : rngFromSeedStream s i < 4294967296 :=
  mulberryStream_lt _ _

/-- A 32-bit numerator always maps into the inclusive range [1, 90]. -/
theorem rngInt_mem (v : ℕ) (hv : v < 4294967296) :
    1 ≤ rngInt v 1 90 ∧ rngInt v 1 90 ≤ 90 := by
  unfold rngInt
  have h : v * (90 - 1 + 1) / 4294967296 < 90 := by
    rw [Nat.div_lt_iff_lt_mul (by norm_num : 0 < 4294967296)]
    calc v * (90 - 1 + 1) = v * 90 := by norm_num
      _ < 4294967296 * 90 := by omega
      _ = 90 * 4294967296 := by ring
  omega

/-! ## Probability engine: `nCk` computes the binomial coefficient -/

theorem nCkLoop_partial (n k : ℕ) (hk : k ≤ n) :
    ∀ j, j ≤ k → (List.range j).foldl (nCkStep n k) 1 = ((n - k + j).choose j : ℚ) := by
  intro j
  induction j with
  | zero => intro _; simp
  | succ j ih =>
    intro hj
    have hj' : j ≤ k := Nat.le_of_succ_le hj
    rw [List.range_succ, List.foldl_append, ih hj']
    simp only [List.foldl_cons, List.foldl_nil, nCkStep]
    have hcast : (n : ℚ) - ((k : ℚ) - ((j : ℚ) + 1)) = ((n - k + j + 1 : ℕ) : ℚ) := by
      push_cast [Nat.cast_sub hk]
      ring
    rw [hcast, show n - k + (j + 1) = n - k + j + 1 by omega]
    have key := Nat.succ_mul_choose_eq (n - k + j) j
    have keyQ : ((n - k + j + 1 : ℕ) : ℚ) * (((n - k + j).choose j : ℕ) : ℚ) =
        (((n - k + j + 1).choose (j + 1) : ℕ) : ℚ) * ((j + 1 : ℕ) : ℚ) := by
      exact_mod_cast key
    have hj1 : ((j : ℚ) + 1) ≠ 0 := by positivity
    rw [div_eq_iff hj1]
    push_cast at keyQ ⊢
    linear_combination keyQ

theorem nCkLoop_eq (n k : ℕ) (hk : k ≤ n) : nCkLoop n k = (n.choose k : ℚ) := by
  have h := nCkLoop_partial n k hk k le_rfl
  rwa [Nat.sub_add_cancel hk] at h

/-- `nCk` agrees with the mathematical binomial coefficient everywhere. -/
theorem nCk_eq_choose (n k : ℕ) : nCk n k = (n.choose k : ℚ) := by
  unfold nCk
  split
  · next h => rw [Nat.choose_eq_zero_of_lt (by omega)]; norm_num
  · next h =>
    have hk : k ≤ n := by omega
    rcases le_total k (n - k) with hle | hle
    · rw [min_eq_left hle, nCkLoop_eq n k hk]
    · rw [min_eq_right hle, nCkLoop_eq n (n - k) (Nat.sub_le n k), Nat.choose_symm hk]

theorem prob_eq (r : ℕ) : singleTicketExactMatchProb r =
    ((Nat.choose 6 r : ℚ) * (Nat.choose 84 (6 - r) : ℚ)) / (Nat.choose 90 6 : ℚ) := by
  unfold singleTicketExactMatchProb
  rw [nCk_eq_choose, nCk_eq_choose, nCk_eq_choose]

theorem choose906_pos : (0 : ℚ) < (Nat.choose 90 6 : ℚ) := by
  exact_mod_cast Nat.choose_pos (by norm_num)

theorem vandermonde_90 :
    ∑ r ∈ Finset.range 7, Nat.choose 6 r * Nat.choose 84 (6 - r) = Nat.choose 90 6 := by
  have h := Nat.add_choose_eq 6 84 6
  rw [Finset.Nat.sum_antidiagonal_eq_sum_range_succ_mk] at h
  simpa using h.symm

theorem sum_prob : ∑ r ∈ Finset.range 7, singleTicketExactMatchProb r = 1 := by
  have hT := choose906_pos
  calc ∑ r ∈ Finset.range 7, singleTicketExactMatchProb r
      = ∑ r ∈ Finset.range 7,
          ((Nat.choose 6 r : ℚ) * (Nat.choose 84 (6 - r) : ℚ)) / (Nat.choose 90 6 : ℚ) :=
        Finset.sum_congr rfl fun r _ => prob_eq r
    _ = (∑ r ∈ Finset.range 7, (Nat.choose 6 r : ℚ) * (Nat.choose 84 (6 - r) : ℚ)) /
          (Nat.choose 90 6 : ℚ) := by rw [Finset.sum_div]
    _ = ((∑ r ∈ Finset.range 7, Nat.choose 6 r * Nat.choose 84 (6 - r) : ℕ) : ℚ) /
          (Nat.choose 90 6 : ℚ) := by push_cast; ring_nf
    _ = 1 := by rw [vandermonde_90]; exact div_self (ne_of_gt hT)

/-- C7: `nCk` computes the exact binomial coefficient via the symmetric
iterative multiplicative formula; `singleTicketExactMatchProb r` is the
hypergeometric `C(6,r)·C(84,6−r)/C(90,6)` for `r ∈ [0,6]`; the seven
exact-match probabilities sum to exactly 1; and the jackpot probability is
exactly `1/C(90,6)` (all in the exact rational semantics of the source's
floating-point arithmetic, which is exact on these inputs). -/
theorem nCk_probability_engine_spec :
    (∀ n k : ℕ, nCk n k = (n.choose k : ℚ)) ∧
    (∀ r : ℕ, r ≤ 6 → singleTicketExactMatchProb r =
      ((Nat.choose 6 r : ℚ) * (Nat.choose 84 (6 - r) : ℚ)) / (Nat.choose 90 6 : ℚ)) ∧
    (∑ r ∈ Finset.range 7, singleTicketExactMatchProb r = 1) ∧
    (singleTicketExactMatchProb 6 = 1 / (Nat.choose 90 6 : ℚ)) := by
  refine ⟨nCk_eq_choose, fun r _ => prob_eq r, sum_prob, ?_⟩
  rw [prob_eq]
  norm_num

/-- Witness for C7 at the concrete input `r = 6`. -/
theorem nCk_probability_engine_spec_witness :
    singleTicketExactMatchProb 6 =
      ((Nat.choose 6 6 : ℚ) * (Nat.choose 84 (6 - 6) : ℚ)) / (Nat.choose 90 6 : ℚ) :=
  nCk_probability_engine_spec.2.1 6 (by norm_num)

/-! ## `atLeastDistribution` -/

/-- The cumulative exact-match distribution `CDF(r) = Σ_{i≤r} exactMatchProbability(i)`. -/
def cdfQ (r : ℕ) : ℚ := ∑ i ∈ Finset.range (r + 1), singleTicketExactMatchProb i

theorem prob_nonneg (r : ℕ) : 0 ≤ singleTicketExactMatchProb r := by
  rw [prob_eq]; positivity

theorem prob_pos (r : ℕ) (hr : r ≤ 6) : 0 < singleTicketExactMatchProb r := by
  rw [prob_eq]
  have h1 : (0 : ℚ) < (Nat.choose 6 r : ℚ) := by exact_mod_cast Nat.choose_pos hr
  have h2 : (0 : ℚ) < (Nat.choose 84 (6 - r) : ℚ) := by
    exact_mod_cast Nat.choose_pos (by omega)
  exact div_pos (mul_pos h1 h2) choose906_pos

theorem cdfQ_nonneg (r : ℕ) : 0 ≤ cdfQ r :=
  Finset.sum_nonneg fun i _ => prob_nonneg i

theorem cdfQ_mono {r r' : ℕ} (h : r ≤ r') : cdfQ r ≤ cdfQ r' :=
  Finset.sum_le_sum_of_subset_of_nonneg
    (Finset.range_subset.mpr (by omega)) (fun i _ _ => prob_nonneg i)

theorem cdfQ_five : cdfQ 5 = 1 - singleTicketExactMatchProb 6 := by
  have h := sum_prob
  rw [Finset.sum_range_succ] at h
  unfold cdfQ
  linarith

theorem cdfQ_lt_one (r : ℕ) (hr : r ≤ 5) : cdfQ r < 1 := by
  have h1 : cdfQ r ≤ cdfQ 5 := cdfQ_mono hr
  have h2 : cdfQ 5 < 1 := by
    rw [cdfQ_five]
    have := prob_pos 6 le_rfl
    linarith
  linarith

/-- The source's `cdf` array entries agree with the cumulative distribution. -/
theorem cdfList_getD (i : ℕ) (hi : i ≤ 6) : cdfList.getD i 0 = cdfQ i := by
  interval_cases i <;>
    simp [cdfList, pExactList, cdfQ, List.range_succ, Finset.sum_range_succ]

/-- C8: for every `k ≥ 1`, `atLeastDistribution k` has exactly one entry
per `m ∈ [1..6]`, namely `(m, 1 − CDF(m−1)^k)`, listed in descending `m`
order; along the list `m` strictly decreases while `p` is non-decreasing
(so `p(m)` is non-increasing in `m`); and every probability lies in `(0,1]`. -/
theorem atLeastDistribution_spec (k : ℕ) (hk : 1 ≤ k) :
    atLeastDistribution k =
      [(6, 1 - cdfQ 5 ^ k), (5, 1 - cdfQ 4 ^ k), (4, 1 - cdfQ 3 ^ k),
       (3, 1 - cdfQ 2 ^ k), (2, 1 - cdfQ 1 ^ k), (1, 1 - cdfQ 0 ^ k)] ∧
    (atLeastDistribution k).Pairwise (fun a b => b.1 < a.1 ∧ a.2 ≤ b.2) ∧
    (∀ p ∈ atLeastDistribution k, 0 < p.2 ∧ p.2 ≤ 1) := by
  have h0 : atLeastDistribution k =
      [(6, 1 - cdfList.getD 5 0 ^ k), (5, 1 - cdfList.getD 4 0 ^ k),
       (4, 1 - cdfList.getD 3 0 ^ k), (3, 1 - cdfList.getD 2 0 ^ k),
       (2, 1 - cdfList.getD 1 0 ^ k), (1, 1 - cdfList.getD 0 0 ^ k)] := rfl
  have h1 : atLeastDistribution k =
      [(6, 1 - cdfQ 5 ^ k), (5, 1 - cdfQ 4 ^ k), (4, 1 - cdfQ 3 ^ k),
       (3, 1 - cdfQ 2 ^ k), (2, 1 - cdfQ 1 ^ k), (1, 1 - cdfQ 0 ^ k)] := by
    rw [h0, cdfList_getD 5 (by norm_num), cdfList_getD 4 (by norm_num),
      cdfList_getD 3 (by norm_num), cdfList_getD 2 (by norm_num),
      cdfList_getD 1 (by norm_num), cdfList_getD 0 (by norm_num)]
  have hmono : ∀ i j : ℕ, i ≤ j → j ≤ 5 → 1 - cdfQ j ^ k ≤ 1 - cdfQ i ^ k := by
    intro i j hij _
    have := pow_le_pow_left₀ (cdfQ_nonneg i) (cdfQ_mono hij) k
    linarith
  have hbounds : ∀ i : ℕ, i ≤ 5 → 0 < 1 - cdfQ i ^ k ∧ 1 - cdfQ i ^ k ≤ 1 := by
    intro i hi
    have hpow : cdfQ i ^ k < 1 := pow_lt_one₀ (cdfQ_nonneg i) (cdfQ_lt_one i hi) (by omega)
    have hpos : 0 ≤ cdfQ i ^ k := pow_nonneg (cdfQ_nonneg i) k
    constructor <;> linarith
  refine ⟨h1, ?_, ?_⟩
  · rw [h1]
    refine List.Pairwise.cons ?_ (List.Pairwise.cons ?_ (List.Pairwise.cons ?_
      (List.Pairwise.cons ?_ (List.Pairwise.cons ?_ (List.pairwise_singleton _ _))))) <;>
      intro b hb <;> simp only [List.mem_cons, List.mem_singleton] at hb <;>
      rcases hb with h | h | h | h | h | h <;> try subst h
    all_goals first
      | exact ⟨by norm_num, hmono _ _ (by norm_num) (by norm_num)⟩
      | cases h
  · intro p hp
    rw [h1] at hp
    simp only [List.mem_cons, List.mem_singleton] at hp
    rcases hp with h | h | h | h | h | h | h <;> try subst h
    all_goals first
      | exact hbounds _ (by norm_num)
      | cases h

/-- Witness for C8 at the concrete input `k = 1`. -/
theorem atLeastDistribution_spec_witness :
    atLeastDistribution 1 =
      [(6, 1 - cdfQ 5 ^ 1), (5, 1 - cdfQ 4 ^ 1), (4, 1 - cdfQ 3 ^ 1),
       (3, 1 - cdfQ 2 ^ 1), (2, 1 - cdfQ 1 ^ 1), (1, 1 - cdfQ 0 ^ 1)] :=
  (atLeastDistribution_spec 1 (by norm_num)).1

/-! ## Candidate sampler: structural lemmas -/

theorem setAdd_mem (s : List ℕ) (n x : ℕ) : x ∈ setAdd s n ↔ x ∈ s ∨ x = n := by
  unfold setAdd
  split
  · next h =>
    simp only [List.elem_eq_mem, decide_eq_true_eq] at h
    constructor
    · exact fun hx => Or.inl hx
    · rintro (hx | rfl)
      · exact hx
      · exact h
  · simp

theorem setAdd_nodup (s : List ℕ) (n : ℕ) (h : s.Nodup) : (setAdd s n).Nodup := by
  unfold setAdd
  split
  · exact h
  · next hc =>
    simp only [List.elem_eq_mem, decide_eq_true_eq] at hc
    simp [List.nodup_append, h, hc]

theorem foldl_setAdd_mem (l : List ℕ) :
    ∀ (s : List ℕ) (x : ℕ), x ∈ l.foldl setAdd s ↔ x ∈ s ∨ x ∈ l := by
  induction l with
  | nil => simp
  | cons a l ih =>
    intro s x
    rw [List.foldl_cons, ih, setAdd_mem]
    simp only [List.mem_cons]
    tauto

theorem foldl_setAdd_nodup (l : List ℕ) :
    ∀ s : List ℕ, s.Nodup → (l.foldl setAdd s).Nodup := by
  induction l with
  | nil => exact fun s h => h
  | cons a l ih => exact fun s h => ih _ (setAdd_nodup s a h)

theorem mustIncludeSet_mem (c : Constraints) (x : ℕ) :
    x ∈ mustIncludeSet c ↔ x ∈ c.mustInclude := by
  unfold mustIncludeSet
  rw [foldl_setAdd_mem]
  simp

theorem mustIncludeSet_nodup (c : Constraints) : (mustIncludeSet c).Nodup :=
  foldl_setAdd_nodup _ _ List.nodup_nil

theorem normalizeNums_perm (l : List ℕ) : List.Perm (normalizeNums l) l :=
  List.perm_insertionSort _ l

theorem normalizeNums_sorted (l : List ℕ) : (normalizeNums l).Sorted (· ≤ ·) :=
  List.sorted_insertionSort _ l

theorem normalizeNums_sorted_lt (l : List ℕ) (h : l.Nodup) :
    (normalizeNums l).Sorted (· < ·) :=
  List.Pairwise.imp₂ (fun _ _ hab hne => lt_of_le_of_ne hab hne)
    (normalizeNums_sorted l) ((normalizeNums_perm l).nodup_iff.mpr h)

/-- `isValidSestina` decides exactly the conjunction of the three
constraint clauses. -/
theorem isValid_iff (nums : List ℕ) (c : Constraints) :
    isValidSestina nums c = true ↔
      (∀ e ∈ c.exclude, e ∉ nums) ∧ (∀ m ∈ c.mustInclude, m ∈ nums) ∧
      (c.mustIncludeAnyOf = [] ∨ ∃ a ∈ c.mustIncludeAnyOf, a ∈ nums) := by
  simp [isValidSestina, List.isEmpty_iff]
  tauto

theorem fillLoop_done {stream : ℕ → ℕ} {c : Constraints} {fuel pos : ℕ} {picked : List ℕ}
    (h : 6 ≤ picked.length) : fillLoop stream c fuel pos picked = .ok (picked, pos) := by
  rw [fillLoop.eq_def]; dsimp only; rw [if_pos h]

theorem fillLoop_zero {stream : ℕ → ℕ} {c : Constraints} {pos : ℕ} {picked : List ℕ}
    (h : ¬ 6 ≤ picked.length) :
    fillLoop stream c 0 pos picked = .error .generationExhausted := by
  rw [fillLoop.eq_def]; dsimp only; rw [if_neg h]

theorem fillLoop_succ {stream : ℕ → ℕ} {c : Constraints} {fuel pos : ℕ} {picked : List ℕ}
    (h : ¬ 6 ≤ picked.length) :
    fillLoop stream c (fuel + 1) pos picked =
      (if picked.contains (rngInt (stream pos) 1 90) then fillLoop stream c fuel (pos + 1) picked
       else if c.exclude.contains (rngInt (stream pos) 1 90) then
         fillLoop stream c fuel (pos + 1) picked
       else fillLoop stream c fuel (pos + 1) (picked ++ [rngInt (stream pos) 1 90])) := by
  rw [fillLoop.eq_def]; dsimp only; rw [if_neg h]

/-- Everything the fill loop can return: the original working set extended
by freshly drawn numbers in [1,90], duplicate-free, and of length exactly 6
(when entered with at most 6 numbers). -/
theorem fillLoop_ok_spec (stream : ℕ → ℕ) (c : Constraints) (hs : ∀ i, stream i < 4294967296) :
    ∀ fuel pos picked p pos', fillLoop stream c fuel pos picked = .ok (p, pos') →
      (∃ rest, p = picked ++ rest ∧ ∀ x ∈ rest, 1 ≤ x ∧ x ≤ 90) ∧
      (picked.Nodup → p.Nodup) ∧ (picked.length ≤ 6 → p.length = 6) := by
  intro fuel
  induction fuel with
  | zero =>
    intro pos picked p pos' h
    by_cases h6 : 6 ≤ picked.length
    · rw [fillLoop_done h6] at h
      obtain ⟨rfl, rfl⟩ : picked = p ∧ pos = pos' := by simpa using h
      exact ⟨⟨[], by simp, by simp⟩, fun hn => hn, fun hle => le_antisymm hle h6⟩
    · rw [fillLoop_zero h6] at h; cases h
  | succ fuel ih =>
    intro pos picked p pos' h
    by_cases h6 : 6 ≤ picked.length
    · rw [fillLoop_done h6] at h
      obtain ⟨rfl, rfl⟩ : picked = p ∧ pos = pos' := by simpa using h
      exact ⟨⟨[], by simp, by simp⟩, fun hn => hn, fun hle => le_antisymm hle h6⟩
    · rw [fillLoop_succ h6] at h
      split at h
      · exact ih _ _ _ _ h
      · split at h
        · exact ih _ _ _ _ h
        · next hcont _ =>
          have hxm : rngInt (stream pos) 1 90 ∉ picked := by
            simpa [List.elem_eq_mem] using hcont
          obtain ⟨⟨rest, hrest, hbnd⟩, hnodup, hlen⟩ := ih _ _ _ _ h
          have hx := rngInt_mem (stream pos) (hs pos)
          refine ⟨⟨rngInt (stream pos) 1 90 :: rest, by simpa [List.append_assoc] using hrest, ?_⟩,
            ?_, ?_⟩
          · intro x hx'
            rcases List.mem_cons.mp hx' with rfl | hx'
            · exact hx
            · exact hbnd x hx'
          · intro hn
            exact hnodup (by simp [List.nodup_append, hn, hxm])
          · intro hle
            have h7 : picked.length < 6 := by omega
            exact hlen (by simp; omega)

theorem sample_impossible {stream : ℕ → ℕ} {c : Constraints} {rfuel pos : ℕ}
    (h : 6 < (mustIncludeSet c).length) :
    generateRandomSestinaWithConstraints stream c rfuel pos =
      some (.error .impossibleConstraint) := by
  rw [generateRandomSestinaWithConstraints.eq_def]; dsimp only; rw [if_pos h]

theorem sample_eq {stream : ℕ → ℕ} {c : Constraints} {rfuel pos : ℕ}
    (h : ¬ 6 < (mustIncludeSet c).length) :
    generateRandomSestinaWithConstraints stream c rfuel pos =
      match fillLoop stream c 100000 pos (mustIncludeSet c) with
      | .error e => some (.error e)
      | .ok (picked, pos') =>
        if isValidSestina (normalizeNums picked) c then some (.ok (normalizeNums picked, pos'))
        else
          match rfuel with
          | 0 => none
          | rfuel + 1 => generateRandomSestinaWithConstraints stream c rfuel pos' := by
  rw [generateRandomSestinaWithConstraints.eq_def]; dsimp only; rw [if_neg h]

/-- Whenever the sampler returns a combination (with in-range mandatory
numbers), it is 6 distinct sorted numbers of [1,90] passing the full
validator. -/
theorem sample_ok_spec (stream : ℕ → ℕ) (c : Constraints) (hs : ∀ i, stream i < 4294967296)
    (hmr : ∀ x ∈ c.mustInclude, 1 ≤ x ∧ x ≤ 90) :
    ∀ rfuel pos nums pos',
      generateRandomSestinaWithConstraints stream c rfuel pos = some (.ok (nums, pos')) →
      nums.length = 6 ∧ nums.Sorted (· < ·) ∧ (∀ x ∈ nums, 1 ≤ x ∧ x ≤ 90) ∧
      isValidSestina nums c = true := by
  intro rfuel
  induction rfuel with
  | zero =>
    intro pos nums pos' h
    by_cases himp : 6 < (mustIncludeSet c).length
    · rw [sample_impossible himp] at h; simp at h
    · rw [sample_eq himp] at h
      cases hfill : fillLoop stream c 100000 pos (mustIncludeSet c) with
      | error e => rw [hfill] at h; simp at h
      | ok pr =>
        obtain ⟨picked, pos''⟩ := pr
        rw [hfill] at h
        dsimp only at h
        by_cases hvalid : isValidSestina (normalizeNums picked) c = true
        · rw [if_pos hvalid] at h
          obtain ⟨rfl, rfl⟩ : normalizeNums picked = nums ∧ pos'' = pos' := by simpa using h
          obtain ⟨⟨rest, hrest, hbnd⟩, hnodup, hlen⟩ :=
            fillLoop_ok_spec stream c hs _ _ _ _ _ hfill
          have hnd : picked.Nodup := hnodup (mustIncludeSet_nodup c)
          have hl6 : picked.length = 6 := hlen (by omega)
          refine ⟨?_, normalizeNums_sorted_lt picked hnd, ?_, hvalid⟩
          · rw [(normalizeNums_perm picked).length_eq, hl6]
          · intro x hxmem
            have hxp : x ∈ picked := (normalizeNums_perm picked).mem_iff.mp hxmem
            rw [hrest] at hxp
            rcases List.mem_append.mp hxp with hmis | hrst
            · exact hmr x ((mustIncludeSet_mem c x).mp hmis)
            · exact hbnd x hrst
        · rw [if_neg hvalid] at h
          cases h
  | succ rfuel ih =>
    intro pos nums pos' h
    by_cases himp : 6 < (mustIncludeSet c).length
    · rw [sample_impossible himp] at h; simp at h
    · rw [sample_eq himp] at h
      cases hfill : fillLoop stream c 100000 pos (mustIncludeSet c) with
      | error e => rw [hfill] at h; simp at h
      | ok pr =>
        obtain ⟨picked, pos''⟩ := pr
        rw [hfill] at h
        dsimp only at h
        by_cases hvalid : isValidSestina (normalizeNums picked) c = true
        · rw [if_pos hvalid] at h
          obtain ⟨rfl, rfl⟩ : normalizeNums picked = nums ∧ pos'' = pos' := by simpa using h
          obtain ⟨⟨rest, hrest, hbnd⟩, hnodup, hlen⟩ :=
            fillLoop_ok_spec stream c hs _ _ _ _ _ hfill
          have hnd : picked.Nodup := hnodup (mustIncludeSet_nodup c)
          have hl6 : picked.length = 6 := hlen (by omega)
          refine ⟨?_, normalizeNums_sorted_lt picked hnd, ?_, hvalid⟩
          · rw [(normalizeNums_perm picked).length_eq, hl6]
          · intro x hxmem
            have hxp : x ∈ picked := (normalizeNums_perm picked).mem_iff.mp hxmem
            rw [hrest] at hxp
            rcases List.mem_append.mp hxp with hmis | hrst
            · exact hmr x ((mustIncludeSet_mem c x).mp hmis)
            · exact hbnd x hrst
        · rw [if_neg hvalid] at h
          exact ih _ _ _ h

/-- C3 (amended: the claim additionally needs `mustInclude ⊆ [1,90]`; see
the counterexample): under the claim's hypotheses plus in-range mandatory
numbers, whenever the sampler returns, the result is exactly 6 distinct
integers of [1,90] sorted ascending, containing every `mustInclude` number,
no `exclude` number, and meeting `mustIncludeAnyOf` when it is non-empty. -/
theorem sampleOne_constraints_spec (stream : ℕ → ℕ) (c : Constraints)
    (hs : ∀ i, stream i < 4294967296)
    (_hsize : (mustIncludeSet c).length ≤ 6)
    (_hdisj : ∀ x ∈ c.mustInclude, x ∉ c.exclude)
    (hrange : ∀ x ∈ c.mustInclude, 1 ≤ x ∧ x ≤ 90)
    (rfuel pos : ℕ) (nums : List ℕ) (pos' : ℕ)
    (h : generateRandomSestinaWithConstraints stream c rfuel pos = some (.ok (nums, pos'))) :
    nums.length = 6 ∧ nums.Nodup ∧ nums.Sorted (· < ·) ∧
    (∀ x ∈ nums, 1 ≤ x ∧ x ≤ 90) ∧
    (∀ m ∈ c.mustInclude, m ∈ nums) ∧
    (∀ e ∈ c.exclude, e ∉ nums) ∧
    (c.mustIncludeAnyOf ≠ [] → ∃ a ∈ c.mustIncludeAnyOf, a ∈ nums) := by
  obtain ⟨h1, h2, h3, h4⟩ := sample_ok_spec stream c hs hrange rfuel pos nums pos' h
  obtain ⟨hex, hmi, hany⟩ := (isValid_iff nums c).mp h4
  exact ⟨h1, h2.imp (fun hab => ne_of_lt hab), h2, h3, hmi, hex,
    fun hne => hany.resolve_left hne⟩

/-- Witness for C3 at a concrete constrained sample. -/
theorem sampleOne_constraints_spec_witness :
    ([1, 3, 5, 6, 7, 14] : List ℕ).length = 6 ∧
    ([1, 3, 5, 6, 7, 14] : List ℕ).Nodup ∧
    ([1, 3, 5, 6, 7, 14] : List ℕ).Sorted (· < ·) ∧
    (∀ x ∈ ([1, 3, 5, 6, 7, 14] : List ℕ), 1 ≤ x ∧ x ≤ 90) ∧
    (∀ m ∈ ([7, 14] : List ℕ), m ∈ ([1, 3, 5, 6, 7, 14] : List ℕ)) ∧
    (∀ e ∈ ([2, 4] : List ℕ), e ∉ ([1, 3, 5, 6, 7, 14] : List ℕ)) ∧
    (([3] : List ℕ) ≠ [] → ∃ a ∈ ([3] : List ℕ), a ∈ ([1, 3, 5, 6, 7, 14] : List ℕ)) :=
  sampleOne_constraints_spec testStream ⟨[2, 4], [7, 14], [3]⟩ testStream_lt
    (by decide) (by decide) (by decide) 2 0 [1, 3, 5, 6, 7, 14] 6 (by decide)

/-- Counterexample for C3 as stated: constraints with 6 distinct mandatory
numbers disjoint from `exclude` — but out of range — make the sampler
return a combination containing 91 > 90. -/
theorem sampleOne_constraints_counterexample :
    (mustIncludeSet ⟨[], [91, 92, 93, 94, 95, 96], []⟩).length ≤ 6 ∧
    (∀ x ∈ ([91, 92, 93, 94, 95, 96] : List ℕ), x ∉ ([] : List ℕ)) ∧
    generateRandomSestinaWithConstraints testStream ⟨[], [91, 92, 93, 94, 95, 96], []⟩ 0 0 =
      some (.ok ([91, 92, 93, 94, 95, 96], 0)) ∧
    ¬ (∀ x ∈ ([91, 92, 93, 94, 95, 96] : List ℕ), x ≤ 90) := by decide

/-- The sampler never returns (diverges) on this constraints/stream pair:
at every retry budget the modelled recursion is still running. -/
def sampleDiverges (c : Constraints) (stream : ℕ → ℕ) : Prop :=
  ∀ rfuel pos, generateRandomSestinaWithConstraints stream c rfuel pos = none

/-- C4 (amended: the retry recursion has *no* guard in the source): when
the post-fill validity check fails, the whole sample is discarded and the
sampler retries from the advanced stream position; at retry budget 0 the
recursion is still running.  (The fill loop itself *is* guarded — see
`fillLoop_zero` — but nothing bounds the retries, so `sampleOne` need not
terminate; see the counterexample.) -/
theorem sampler_retry_spec (stream : ℕ → ℕ) (c : Constraints) (rfuel pos : ℕ)
    (picked : List ℕ) (pos' : ℕ)
    (h6 : ¬ 6 < (mustIncludeSet c).length)
    (hfill : fillLoop stream c 100000 pos (mustIncludeSet c) = .ok (picked, pos'))
    (hinv : isValidSestina (normalizeNums picked) c = false) :
    generateRandomSestinaWithConstraints stream c (rfuel + 1) pos =
      generateRandomSestinaWithConstraints stream c rfuel pos' ∧
    generateRandomSestinaWithConstraints stream c 0 pos = none := by
  constructor <;>
    · rw [sample_eq h6, hfill]
      dsimp only
      rw [if_neg (by simp [hinv])]

/-- Witness for C4: with `mustInclude = [1..6]` and `mustIncludeAnyOf = [7]`
the fill is immediate, the validity re-check fails, and one retry step is
taken from the same position. -/
theorem sampler_retry_spec_witness :
    generateRandomSestinaWithConstraints testStream ⟨[], [1, 2, 3, 4, 5, 6], [7]⟩ 1 0 =
      generateRandomSestinaWithConstraints testStream ⟨[], [1, 2, 3, 4, 5, 6], [7]⟩ 0 0 ∧
    generateRandomSestinaWithConstraints testStream ⟨[], [1, 2, 3, 4, 5, 6], [7]⟩ 0 0 = none :=
  sampler_retry_spec testStream ⟨[], [1, 2, 3, 4, 5, 6], [7]⟩ 0 0 [1, 2, 3, 4, 5, 6] 0
    (by decide) (by decide) (by decide)

/-- Counterexample for C4 as stated: with the unsatisfiable constraints
`mustInclude = [1..6]`, `mustIncludeAnyOf = [7]` the sampler retries
forever — on every stream position and at every retry budget it has not
terminated, so no guard bounds the retry loop. -/
theorem sampler_retry_counterexample :
    sampleDiverges ⟨[], [1, 2, 3, 4, 5, 6], [7]⟩ testStream := by
  intro rfuel
  induction rfuel with
  | zero =>
    intro pos
    rw [sample_eq (by decide), fillLoop_done (by decide)]
    dsimp only
    rw [if_neg (by decide)]
  | succ r ih =>
    intro pos
    rw [sample_eq (by decide), fillLoop_done (by decide)]
    dsimp only
    rw [if_neg (by decide)]
    exact ih pos

/-- The fill loop's only error is `GenerationExhausted`. -/
theorem fillLoop_error_eq (stream : ℕ → ℕ) (c : Constraints) :
    ∀ fuel pos picked e, fillLoop stream c fuel pos picked = .error e →
      e = .generationExhausted := by
  intro fuel
  induction fuel with
  | zero =>
    intro pos picked e h
    by_cases h6 : 6 ≤ picked.length
    · rw [fillLoop_done h6] at h; cases h
    · rw [fillLoop_zero h6] at h
      obtain rfl : GenError.generationExhausted = e := by simpa using h
      rfl
  | succ fuel ih =>
    intro pos picked e h
    by_cases h6 : 6 ≤ picked.length
    · rw [fillLoop_done h6] at h; cases h
    · rw [fillLoop_succ h6] at h
      split at h
      · exact ih _ _ _ h
      · split at h
        · exact ih _ _ _ h
        · exact ih _ _ _ h

/-- C5 (amended: the source has *no* `mustInclude`/`exclude` overlap check;
see the counterexample): the sampler yields `ImpossibleConstraint` exactly
when `mustInclude` holds more than 6 distinct numbers, and on that path the
result is the same for every stream and position — no draw is taken. -/
theorem impossibleConstraint_iff (c : Constraints) :
    (6 < (mustIncludeSet c).length →
      ∀ (stream : ℕ → ℕ) (rfuel pos : ℕ),
        generateRandomSestinaWithConstraints stream c rfuel pos =
          some (.error .impossibleConstraint)) ∧
    ((mustIncludeSet c).length ≤ 6 →
      ∀ (stream : ℕ → ℕ) (rfuel pos : ℕ),
        generateRandomSestinaWithConstraints stream c rfuel pos ≠
          some (.error .impossibleConstraint)) := by
  constructor
  · intro h stream rfuel pos
    exact sample_impossible h
  · intro h stream rfuel
    induction rfuel with
    | zero =>
      intro pos
      rw [sample_eq (by omega)]
      cases hfill : fillLoop stream c 100000 pos (mustIncludeSet c) with
      | error e =>
        have := fillLoop_error_eq stream c _ _ _ _ hfill
        subst this
        simp
      | ok pr =>
        obtain ⟨picked, pos''⟩ := pr
        dsimp only
        split
        · simp
        · simp
    | succ rfuel ih =>
      intro pos
      rw [sample_eq (by omega)]
      cases hfill : fillLoop stream c 100000 pos (mustIncludeSet c) with
      | error e =>
        have := fillLoop_error_eq stream c _ _ _ _ hfill
        subst this
        simp
      | ok pr =>
        obtain ⟨picked, pos''⟩ := pr
        dsimp only
        split
        · simp
        · exact ih pos''

/-- Witness for C5: seven distinct mandatory numbers yield
`ImpossibleConstraint` (here on the reference stream at position 0). -/
theorem impossibleConstraint_iff_witness :
    generateRandomSestinaWithConstraints testStream ⟨[], [1, 2, 3, 4, 5, 6, 7], []⟩ 0 0 =
      some (.error .impossibleConstraint) :=
  (impossibleConstraint_iff ⟨[], [1, 2, 3, 4, 5, 6, 7], []⟩).1 (by decide) testStream 0 0

/-- Counterexample for C5 as stated: `mustInclude = [1..6]` overlaps
`exclude = [1]`, yet the sampler never raises `ImpossibleConstraint` — it
retries forever (at every retry budget and position it has produced
nothing, in particular not the claimed error). -/
theorem impossibleConstraint_counterexample :
    (∃ x, x ∈ ([1, 2, 3, 4, 5, 6] : List ℕ) ∧ x ∈ ([1] : List ℕ)) ∧
    sampleDiverges ⟨[1], [1, 2, 3, 4, 5, 6], []⟩ testStream := by
  refine ⟨⟨1, by decide, by decide⟩, ?_⟩
  intro rfuel
  induction rfuel with
  | zero =>
    intro pos
    rw [sample_eq (by decide), fillLoop_done (by decide)]
    dsimp only
    rw [if_neg (by decide)]
  | succ r ih =>
    intro pos
    rw [sample_eq (by decide), fillLoop_done (by decide)]
    dsimp only
    rw [if_neg (by decide)]
    exact ih pos

/-! ## Uniqueness ledger: `generateUniqueSestine` -/

theorem slotLoop_zero (factory : ℕ → ℕ → ℕ) (c : Constraints) (rfuel nonce : ℕ)
    (keys : Finset String) :
    slotLoop factory c rfuel 0 nonce keys = some (.error .uniquenessExhausted) := rfl

theorem slotLoop_succ (factory : ℕ → ℕ → ℕ) (c : Constraints) (rfuel fuel nonce : ℕ)
    (keys : Finset String) :
    slotLoop factory c rfuel (fuel + 1) nonce keys =
      match generateRandomSestinaWithConstraints (factory nonce) c rfuel 0 with
      | none => none
      | some (.error e) => some (.error e)
      | some (.ok (nums, _)) =>
        if sestinaKey nums ∈ keys then slotLoop factory c rfuel fuel (nonce + 1) keys
        else some (.ok (nums, sestinaKey nums, nonce, insert (sestinaKey nums) keys)) := rfl

/-- A successfully allocated slot: the accepted key is the sampled
combination's key, it was fresh, and it is pushed into the key set. -/
theorem slotLoop_ok (factory : ℕ → ℕ → ℕ) (c : Constraints) (rfuel : ℕ) :
    ∀ fuel nonce keys nums key nonce' keys',
      slotLoop factory c rfuel fuel nonce keys = some (.ok (nums, key, nonce', keys')) →
      key = sestinaKey nums ∧ key ∉ keys ∧ keys' = insert key keys := by
  intro fuel
  induction fuel with
  | zero =>
    intro nonce keys nums key nonce' keys' h
    rw [slotLoop_zero] at h
    simp at h
  | succ fuel ih =>
    intro nonce keys nums key nonce' keys' h
    rw [slotLoop_succ] at h
    cases hs : generateRandomSestinaWithConstraints (factory nonce) c rfuel 0 with
    | none => rw [hs] at h; cases h
    | some r =>
      rw [hs] at h
      cases r with
      | error e => simp at h
      | ok pr =>
        obtain ⟨nums₀, pos₀⟩ := pr
        dsimp only at h
        split at h
        · exact ih _ _ _ _ _ _ h
        · next hmem =>
          obtain ⟨rfl, rfl, _, rfl⟩ :
              nums₀ = nums ∧ sestinaKey nums₀ = key ∧ nonce = nonce' ∧
                insert (sestinaKey nums₀) keys = keys' := by simpa using h
          exact ⟨rfl, hmem, rfl⟩

theorem genAux_zero (factory : ℕ → ℕ → ℕ) (c : Constraints) (rfuel : ℕ)
    (so : Option String) (now i : ℕ) (keys : Finset String) :
    genAux factory c rfuel so now 0 i keys = some (.ok ([], keys)) := rfl

theorem genAux_succ (factory : ℕ → ℕ → ℕ) (c : Constraints) (rfuel : ℕ)
    (so : Option String) (now slots i : ℕ) (keys : Finset String) :
    genAux factory c rfuel so now (slots + 1) i keys =
      match slotLoop factory c rfuel 50001 0 keys with
      | none => none
      | some (.error e) => some (.error (e, keys))
      | some (.ok (nums, key, nonce, keys')) =>
        match genAux factory c rfuel so now slots (i + 1) keys' with
        | none => none
        | some (.error e) => some (.error e)
        | some (.ok (rest, keysF)) =>
          some (.ok (({ nums := nums, key := key, createdAt := now + i, frozen := false,
                        seed := so, attemptNonce := some nonce } : Sestina) :: rest, keysF)) := rfl

/-- Every successful allocation of `slots` slots: correct count, all keys
fresh with respect to the incoming set, mutually distinct keys, and the key
set extended by exactly the produced keys. -/
theorem genAux_ok (factory : ℕ → ℕ → ℕ) (c : Constraints) (rfuel : ℕ)
    (so : Option String) (now : ℕ) :
    ∀ slots i keys out keysF,
      genAux factory c rfuel so now slots i keys = some (.ok (out, keysF)) →
      out.length = slots ∧ (∀ s ∈ out, s.key ∉ keys) ∧
      (out.map fun s => s.key).Nodup ∧
      keysF = keys ∪ (out.map fun s => s.key).toFinset ∧
      keysF.card = keys.card + slots := by
  intro slots
  induction slots with
  | zero =>
    intro i keys out keysF h
    rw [genAux_zero] at h
    obtain ⟨rfl, rfl⟩ : ([] : List Sestina) = out ∧ keys = keysF := by simpa using h
    simp
  | succ slots ih =>
    intro i keys out keysF h
    rw [genAux_succ] at h
    cases hsl : slotLoop factory c rfuel 50001 0 keys with
    | none => rw [hsl] at h; cases h
    | some r =>
      rw [hsl] at h
      cases r with
      | error e => simp at h
      | ok q =>
        obtain ⟨nums, key, nonce, keys₁⟩ := q
        dsimp only at h
        cases hrec : genAux factory c rfuel so now slots (i + 1) keys₁ with
        | none => rw [hrec] at h; cases h
        | some r2 =>
          rw [hrec] at h
          cases r2 with
          | error e2 => simp at h
          | ok p2 =>
            obtain ⟨rest, keysF₂⟩ := p2
            obtain ⟨rfl, rfl⟩ :
                ({ nums := nums, key := key, createdAt := now + i, frozen := false,
                   seed := so, attemptNonce := some nonce } : Sestina) :: rest = out ∧
                  keysF₂ = keysF := by simpa using h
            obtain ⟨hkey, hnot, rfl⟩ := slotLoop_ok factory c rfuel _ _ _ _ _ _ _ hsl
            obtain ⟨hlen, hfresh, hnodup, hunion, hcard⟩ := ih (i + 1) _ rest keysF₂ hrec
            refine ⟨by simp [hlen], ?_, ?_, ?_, ?_⟩
            · intro s hs
              rcases List.mem_cons.mp hs with rfl | hs
              · exact hnot
              · intro hmem
                exact hfresh s hs (Finset.mem_insert_of_mem hmem)
            · refine List.nodup_cons.mpr ⟨?_, hnodup⟩
              intro hmem
              obtain ⟨s, hs, hkeq⟩ := List.mem_map.mp hmem
              exact hfresh s hs (hkeq ▸ Finset.mem_insert_self key keys)
            · rw [hunion]
              ext x
              simp only [Finset.mem_union, Finset.mem_insert, List.map_cons,
                List.toFinset_cons, List.mem_toFinset]
              tauto
            · rw [hcard, Finset.card_insert_of_not_mem hnot]
              omega

/-- C6: whenever `generateUniqueSestine(count, existingKeys, …)` returns
normally it returns exactly `count` combinations (in slot order, the list
being built slot 0 first), none of whose keys were in `existingKeys`
before the call, with no duplicate keys among themselves, and the key set
has grown by exactly `count` keys. -/
theorem generateUniqueSestine_spec (count : ℕ) (keys : Finset String)
    (factory : ℕ → ℕ → ℕ) (c : Constraints) (rfuel : ℕ) (so : Option String) (now : ℕ)
    (out : List Sestina) (keysF : Finset String)
    (h : generateUniqueSestine count keys factory c rfuel so now = some (.ok (out, keysF))) :
    out.length = count ∧ (∀ s ∈ out, s.key ∉ keys) ∧
    (out.map fun s => s.key).Nodup ∧ keysF.card = keys.card + count := by
  obtain ⟨h1, h2, h3, _, h5⟩ := genAux_ok factory c rfuel so now count 0 keys out keysF h
  exact ⟨h1, h2, h3, h5⟩

/-- Witness for C6: a concrete 2-slot allocation (the second slot collides
with the first at nonce 0 and is accepted at nonce 1). -/
theorem generateUniqueSestine_spec_witness :
    ([⟨[1, 2, 3, 4, 5, 6], "1-2-3-4-5-6", 1000, false, none, some 0⟩,
      ⟨[2, 3, 4, 5, 6, 7], "2-3-4-5-6-7", 1001, false, none, some 1⟩] : List Sestina).length = 2 ∧
    (∀ s ∈ ([⟨[1, 2, 3, 4, 5, 6], "1-2-3-4-5-6", 1000, false, none, some 0⟩,
      ⟨[2, 3, 4, 5, 6, 7], "2-3-4-5-6-7", 1001, false, none, some 1⟩] : List Sestina),
      s.key ∉ (∅ : Finset String)) ∧
    (([⟨[1, 2, 3, 4, 5, 6], "1-2-3-4-5-6", 1000, false, none, some 0⟩,
      ⟨[2, 3, 4, 5, 6, 7], "2-3-4-5-6-7", 1001, false, none, some 1⟩] : List Sestina).map
        fun s => s.key).Nodup ∧
    (insert "2-3-4-5-6-7" {"1-2-3-4-5-6"} : Finset String).card = (∅ : Finset String).card + 2 :=
  generateUniqueSestine_spec 2 ∅ (fun n i => testStream (n + i)) ⟨[], [], []⟩ 0 none 1000
    _ _ (by decide)

/-- C9: the regenerate-unfrozen operation samples its replacements against
the snapshot `regenSnapshotKeys` — the global ledger with the keys of every
non-frozen combination of the target group already released — so the
replacements never collide with their own predecessors; the frozen
combinations are kept verbatim (moved to the front, in order) and the
group's total combination count is preserved. -/
theorem regenerateNonFrozenInGroup_spec (st : AppState) (gid : String) (g : SGroup)
    (factory : ℕ → ℕ → ℕ) (c : Constraints) (rfuel : ℕ) (so : Option String) (now : ℕ)
    (out : List Sestina) (keysF : Finset String)
    (hfind : st.groups.find? (fun x => x.id == gid) = some g)
    (hcount : g.sestine.length - (g.sestine.filter fun s => s.frozen).length ≠ 0)
    (hgen : generateUniqueSestine
      (g.sestine.length - (g.sestine.filter fun s => s.frozen).length)
      (regenSnapshotKeys st g) (fun nonce => factory nonce) c rfuel so now =
        some (.ok (out, keysF))) :
    (regenerateNonFrozenInGroup st gid factory c rfuel so now).groups =
      st.groups.map (fun x => if x.id == gid
        then { x with sestine := (g.sestine.filter fun s => s.frozen) ++ out } else x) ∧
    out.length = g.sestine.length - (g.sestine.filter fun s => s.frozen).length ∧
    (∀ s ∈ out, s.key ∉ regenSnapshotKeys st g) ∧
    ((g.sestine.filter fun s => s.frozen) ++ out).length = g.sestine.length := by
  have hspec := genAux_ok (fun nonce => factory nonce) c rfuel so now
    (g.sestine.length - (g.sestine.filter fun s => s.frozen).length) 0
    (regenSnapshotKeys st g) out keysF hgen
  obtain ⟨hlen, hfresh, _, _, _⟩ := hspec
  have hfle : (g.sestine.filter fun s => s.frozen).length ≤ g.sestine.length :=
    List.length_filter_le _ _
  refine ⟨?_, hlen, hfresh, by simp [hlen]; omega⟩
  unfold regenerateNonFrozenInGroup
  rw [hfind]
  dsimp only
  rw [if_neg hcount, hgen]

/-- Witness for C9: regenerating the single non-frozen sestina of a group
succeeds, and the replacement may even reuse its predecessor's released
key without being treated as a collision. -/
theorem regenerateNonFrozenInGroup_spec_witness :
    (regenerateNonFrozenInGroup
        ⟨[⟨"g1", [⟨[1, 2, 3, 4, 5, 6], "1-2-3-4-5-6", 0, false, none, none⟩]⟩]⟩
        "g1" (fun _ => testStream) ⟨[], [], []⟩ 0 none 500).groups =
      (⟨[⟨"g1", [⟨[1, 2, 3, 4, 5, 6], "1-2-3-4-5-6", 0, false, none, none⟩]⟩]⟩ :
          AppState).groups.map
        (fun x => if x.id == "g1"
          then { x with sestine :=
            ((⟨"g1", [⟨[1, 2, 3, 4, 5, 6], "1-2-3-4-5-6", 0, false, none, none⟩]⟩ :
              SGroup).sestine.filter fun s => s.frozen) ++
            [⟨[1, 2, 3, 4, 5, 6], "1-2-3-4-5-6", 500, false, none, some 0⟩] }
          else x) ∧
    ([⟨[1, 2, 3, 4, 5, 6], "1-2-3-4-5-6", 500, false, none, some 0⟩] : List Sestina).length =
      ((⟨"g1", [⟨[1, 2, 3, 4, 5, 6], "1-2-3-4-5-6", 0, false, none, none⟩]⟩ :
        SGroup).sestine.length -
       ((⟨"g1", [⟨[1, 2, 3, 4, 5, 6], "1-2-3-4-5-6", 0, false, none, none⟩]⟩ :
        SGroup).sestine.filter fun s => s.frozen).length) ∧
    (∀ s : Sestina, s ∈ ([⟨[1, 2, 3, 4, 5, 6], "1-2-3-4-5-6", 500, false, none, some 0⟩] : List Sestina) →
      s.key ∉ regenSnapshotKeys
        ⟨[⟨"g1", [⟨[1, 2, 3, 4, 5, 6], "1-2-3-4-5-6", 0, false, none, none⟩]⟩]⟩
        ⟨"g1", [⟨[1, 2, 3, 4, 5, 6], "1-2-3-4-5-6", 0, false, none, none⟩]⟩) ∧
    (((⟨"g1", [⟨[1, 2, 3, 4, 5, 6], "1-2-3-4-5-6", 0, false, none, none⟩]⟩ :
        SGroup).sestine.filter fun s => s.frozen) ++
      ([⟨[1, 2, 3, 4, 5, 6], "1-2-3-4-5-6", 500, false, none, some 0⟩] : List Sestina)).length =
      (⟨"g1", [⟨[1, 2, 3, 4, 5, 6], "1-2-3-4-5-6", 0, false, none, none⟩]⟩ :
        SGroup).sestine.length :=
  regenerateNonFrozenInGroup_spec
    ⟨[⟨"g1", [⟨[1, 2, 3, 4, 5, 6], "1-2-3-4-5-6", 0, false, none, none⟩]⟩]⟩ "g1"
    ⟨"g1", [⟨[1, 2, 3, 4, 5, 6], "1-2-3-4-5-6", 0, false, none, none⟩]⟩
    (fun _ => testStream) ⟨[], [], []⟩ 0 none 500
    [⟨[1, 2, 3, 4, 5, 6], "1-2-3-4-5-6", 500, false, none, some 0⟩] {"1-2-3-4-5-6"}
    (by decide) (by decide) (by decide)

/-! ## Batch scheduler: rollback (C1) -/

theorem chunkLoop_zero (abortFlag : ℕ → Bool) (factory : ℕ → ℕ → ℕ → ℕ) (c : Constraints)
    (rfuel : ℕ) (so : Option String) (nowF : ℕ → ℕ) (n ci produced nb : ℕ)
    (keys : Finset String) (acc : List Sestina) :
    chunkLoop abortFlag factory c rfuel so nowF n 0 ci produced nb keys acc = .fuelOut := rfl

theorem chunkLoop_succ (abortFlag : ℕ → Bool) (factory : ℕ → ℕ → ℕ → ℕ) (c : Constraints)
    (rfuel : ℕ) (so : Option String) (nowF : ℕ → ℕ) (n fuel ci produced nb : ℕ)
    (keys : Finset String) (acc : List Sestina) :
    chunkLoop abortFlag factory c rfuel so nowF n (fuel + 1) ci produced nb keys acc =
      (if produced < n then
        if abortFlag ci then .abortedAt ci
        else
          match generateUniqueSestine (min (chunkSize n) (n - produced)) keys (factory nb) c
              rfuel so (nowF ci) with
          | none => .diverged
          | some (.error (e, _)) => .failed e
          | some (.ok (out, keys')) =>
            chunkLoop abortFlag factory c rfuel so nowF n fuel (ci + 1)
              (produced + out.length) (nb + min (chunkSize n) (n - produced) * 3) keys' (acc ++ out)
      else .committed acc) := rfl

/-- A committed batch holds exactly the accumulated prefix plus the still
missing `n - produced` combinations: commits are full-count only. -/
theorem chunkLoop_committed (abortFlag : ℕ → Bool) (factory : ℕ → ℕ → ℕ → ℕ) (c : Constraints)
    (rfuel : ℕ) (so : Option String) (nowF : ℕ → ℕ) (n : ℕ) :
    ∀ fuel ci produced nb keys acc gen,
      chunkLoop abortFlag factory c rfuel so nowF n fuel ci produced nb keys acc =
        .committed gen →
      produced ≤ n → gen.length = acc.length + (n - produced) := by
  intro fuel
  induction fuel with
  | zero =>
    intro ci produced nb keys acc gen h
    rw [chunkLoop_zero] at h
    cases h
  | succ fuel ih =>
    intro ci produced nb keys acc gen h hle
    rw [chunkLoop_succ] at h
    by_cases hlt : produced < n
    · rw [if_pos hlt] at h
      by_cases hab : abortFlag ci
      · rw [if_pos hab] at h; cases h
      · rw [if_neg hab] at h
        cases hgen : generateUniqueSestine (min (chunkSize n) (n - produced)) keys
            (factory nb) c rfuel so (nowF ci) with
        | none => rw [hgen] at h; cases h
        | some r =>
          rw [hgen] at h
          cases r with
          | error p => obtain ⟨e, k⟩ := p; cases h
          | ok p =>
            obtain ⟨out, keys'⟩ := p
            dsimp only at h
            have hout : out.length = min (chunkSize n) (n - produced) :=
              (genAux_ok (factory nb) c rfuel so (nowF ci) _ 0 keys out keys' hgen).1
            have htake : min (chunkSize n) (n - produced) ≤ n - produced := Nat.min_le_right _ _
            have := ih _ _ _ _ _ _ h (by omega)
            rw [List.length_append] at this
            omega
    · rw [if_neg hlt] at h
      obtain rfl : acc = gen := by simpa using h
      omega

/-- C1: a batch cancelled at a chunk boundary, or aborted by an internal
generation error, commits nothing — the application state (hence the
groups' combination lists and the global key ledger) after the call is the
state before the call; and a commit is only ever reported with the full
requested count, so partial success is never reported as success. -/
theorem generateForSelectedGroup_rollback (st : AppState) (gid : String) (countReq : ℕ)
    (factory : ℕ → ℕ → ℕ → ℕ) (so : Option String) (c : Constraints) (rfuel : ℕ)
    (abortFlag : ℕ → Bool) (nowF : ℕ → ℕ) :
    (∀ k, (generateForSelectedGroup st gid countReq factory so c rfuel abortFlag nowF).2 =
        .abortedAt k →
      (generateForSelectedGroup st gid countReq factory so c rfuel abortFlag nowF).1 = st ∧
      globalKeys (generateForSelectedGroup st gid countReq factory so c rfuel abortFlag nowF).1 =
        globalKeys st) ∧
    (∀ e, (generateForSelectedGroup st gid countReq factory so c rfuel abortFlag nowF).2 =
        .failed e →
      (generateForSelectedGroup st gid countReq factory so c rfuel abortFlag nowF).1 = st ∧
      globalKeys (generateForSelectedGroup st gid countReq factory so c rfuel abortFlag nowF).1 =
        globalKeys st) ∧
    (∀ gen, (generateForSelectedGroup st gid countReq factory so c rfuel abortFlag nowF).2 =
        .committed gen →
      gen.length = max 1 countReq) := by
  unfold generateForSelectedGroup
  cases hfind : st.groups.find? (fun g => g.id == gid) with
  | none =>
    refine ⟨?_, ?_, ?_⟩ <;> intro x h <;> cases h
  | some g =>
    dsimp only
    cases hloop : chunkLoop abortFlag factory c rfuel so nowF (max 1 countReq) (max 1 countReq)
        0 0 0 (globalKeys st) [] with
    | committed gen =>
      refine ⟨?_, ?_, ?_⟩ <;> intro x h
      · cases h
      · cases h
      · obtain rfl : gen = x := by simpa using h
        have := chunkLoop_committed abortFlag factory c rfuel so nowF (max 1 countReq)
          _ _ _ _ _ _ _ hloop (Nat.zero_le _)
        simpa using this
    | noGroup => exact ⟨fun x h => ⟨rfl, rfl⟩, fun x h => ⟨rfl, rfl⟩, fun x h => by cases h⟩
    | abortedAt k => exact ⟨fun x h => ⟨rfl, rfl⟩, fun x h => ⟨rfl, rfl⟩, fun x h => by cases h⟩
    | failed e => exact ⟨fun x h => ⟨rfl, rfl⟩, fun x h => ⟨rfl, rfl⟩, fun x h => by cases h⟩
    | diverged => exact ⟨fun x h => ⟨rfl, rfl⟩, fun x h => ⟨rfl, rfl⟩, fun x h => by cases h⟩
    | fuelOut => exact ⟨fun x h => ⟨rfl, rfl⟩, fun x h => ⟨rfl, rfl⟩, fun x h => by cases h⟩

/-- Witness for C1: a batch cancelled at the very first chunk boundary
leaves the state (and ledger) untouched. -/
theorem generateForSelectedGroup_rollback_witness :
    (generateForSelectedGroup ⟨[⟨"g1", []⟩]⟩ "g1" 1 (fun _ _ => testStream) none
        ⟨[], [], []⟩ 0 (fun _ => true) (fun _ => 0)).1 = ⟨[⟨"g1", []⟩]⟩ ∧
    globalKeys (generateForSelectedGroup ⟨[⟨"g1", []⟩]⟩ "g1" 1 (fun _ _ => testStream) none
        ⟨[], [], []⟩ 0 (fun _ => true) (fun _ => 0)).1 = globalKeys ⟨[⟨"g1", []⟩]⟩ :=
  (generateForSelectedGroup_rollback ⟨[⟨"g1", []⟩]⟩ "g1" 1 (fun _ _ => testStream) none
    ⟨[], [], []⟩ 0 (fun _ => true) (fun _ => 0)).1 0 (by decide)

/-! ## Determinism under a fixed seed (C2) -/

/-- Erase the only extraneous (non-seed-derived) input recorded in a
generated sestina: its creation timestamp. -/
def stripTime (s : Sestina) : Sestina := { s with createdAt := 0 }

/-- Erase timestamps in an allocation result. -/
def stripGen (r : Option (Except (GenError × Finset String) (List Sestina × Finset String))) :
    Option (Except (GenError × Finset String) (List Sestina × Finset String)) :=
  r.map fun x =>
    match x with
    | .error e => .error e
    | .ok p => .ok (p.1.map stripTime, p.2)

/-- Erase timestamps in a batch outcome. -/
def stripOutcome : BatchOutcome → BatchOutcome
  | .committed gen => .committed (gen.map stripTime)
  | o => o

/-- Timestamps are the only difference between two allocations differing in
their `now` input: numbers, keys, nonces and the key-set thread agree. -/
theorem genAux_time (factory : ℕ → ℕ → ℕ) (c : Constraints) (rfuel : ℕ)
    (so : Option String) (now₁ now₂ : ℕ) :
    ∀ slots i keys,
      stripGen (genAux factory c rfuel so now₁ slots i keys) =
      stripGen (genAux factory c rfuel so now₂ slots i keys) := by
  intro slots
  induction slots with
  | zero => intro i keys; rfl
  | succ slots ih =>
    intro i keys
    rw [genAux_succ, genAux_succ]
    cases hsl : slotLoop factory c rfuel 50001 0 keys with
    | none => rfl
    | some r =>
      cases r with
      | error e => rfl
      | ok q =>
        obtain ⟨nums, key, nonce, keys₁⟩ := q
        dsimp only
        have IH := ih (i + 1) keys₁
        cases hr1 : genAux factory c rfuel so now₁ slots (i + 1) keys₁ with
        | none =>
          cases hr2 : genAux factory c rfuel so now₂ slots (i + 1) keys₁ with
          | none => rfl
          | some x₂ =>
            rw [hr1, hr2] at IH
            cases x₂ with
            | error e => simp [stripGen] at IH
            | ok p => simp [stripGen] at IH
        | some x₁ =>
          cases hr2 : genAux factory c rfuel so now₂ slots (i + 1) keys₁ with
          | none =>
            rw [hr1, hr2] at IH
            cases x₁ with
            | error e => simp [stripGen] at IH
            | ok p => simp [stripGen] at IH
          | some x₂ =>
            rw [hr1, hr2] at IH
            cases x₁ with
            | error e₁ =>
              cases x₂ with
              | error e₂ =>
                obtain rfl : e₁ = e₂ := by simpa [stripGen] using IH
                rfl
              | ok p₂ =>
                obtain ⟨rest₂, kF₂⟩ := p₂
                simp [stripGen] at IH
            | ok p₁ =>
              obtain ⟨rest₁, kF₁⟩ := p₁
              cases x₂ with
              | error e₂ => simp [stripGen] at IH
              | ok p₂ =>
                obtain ⟨rest₂, kF₂⟩ := p₂
                obtain ⟨hrest, rfl⟩ : rest₁.map stripTime = rest₂.map stripTime ∧ kF₁ = kF₂ := by
                  simpa [stripGen] using IH
                simp [stripGen, stripTime, hrest]

/-- The chunk loop's outcome is timestamp-invariant: two runs differing
only in their per-chunk wall-clock readings produce the same outcome up to
`createdAt` (in particular the identical sequence of numbers and keys). -/
theorem chunkLoop_time (abortFlag : ℕ → Bool) (factory : ℕ → ℕ → ℕ → ℕ) (c : Constraints)
    (rfuel : ℕ) (so : Option String) (nowF₁ nowF₂ : ℕ → ℕ) (n : ℕ) :
    ∀ fuel ci produced nb keys acc₁ acc₂, acc₁.map stripTime = acc₂.map stripTime →
      stripOutcome (chunkLoop abortFlag factory c rfuel so nowF₁ n fuel ci produced nb keys acc₁) =
      stripOutcome (chunkLoop abortFlag factory c rfuel so nowF₂ n fuel ci produced nb keys acc₂) := by
  intro fuel
  induction fuel with
  | zero => intro ci produced nb keys acc₁ acc₂ _; rfl
  | succ fuel ih =>
    intro ci produced nb keys acc₁ acc₂ hacc
    rw [chunkLoop_succ, chunkLoop_succ]
    by_cases hlt : produced < n
    · rw [if_pos hlt, if_pos hlt]
      by_cases hab : abortFlag ci
      · rw [if_pos hab, if_pos hab]
      · rw [if_neg hab, if_neg hab]
        have HG : stripGen (generateUniqueSestine (min (chunkSize n) (n - produced)) keys
              (factory nb) c rfuel so (nowF₁ ci)) =
            stripGen (generateUniqueSestine (min (chunkSize n) (n - produced)) keys
              (factory nb) c rfuel so (nowF₂ ci)) :=
          genAux_time (factory nb) c rfuel so (nowF₁ ci) (nowF₂ ci) _ 0 keys
        cases hr1 : generateUniqueSestine (min (chunkSize n) (n - produced)) keys
            (factory nb) c rfuel so (nowF₁ ci) with
        | none =>
          cases hr2 : generateUniqueSestine (min (chunkSize n) (n - produced)) keys
              (factory nb) c rfuel so (nowF₂ ci) with
          | none => rfl
          | some x₂ =>
            rw [hr1, hr2] at HG
            cases x₂ with
            | error e => simp [stripGen] at HG
            | ok p => simp [stripGen] at HG
        | some x₁ =>
          cases hr2 : generateUniqueSestine (min (chunkSize n) (n - produced)) keys
              (factory nb) c rfuel so (nowF₂ ci) with
          | none =>
            rw [hr1, hr2] at HG
            cases x₁ with
            | error e => simp [stripGen] at HG
            | ok p => simp [stripGen] at HG
          | some x₂ =>
            rw [hr1, hr2] at HG
            cases x₁ with
            | error e₁ =>
              obtain ⟨e₁, k₁⟩ := e₁
              cases x₂ with
              | error e₂ =>
                obtain ⟨e₂, k₂⟩ := e₂
                obtain ⟨rfl, rfl⟩ : e₁ = e₂ ∧ k₁ = k₂ := by simpa [stripGen] using HG
                rfl
              | ok p₂ =>
                obtain ⟨out₂, keys₂⟩ := p₂
                simp [stripGen] at HG
            | ok p₁ =>
              obtain ⟨out₁, keys₁'⟩ := p₁
              cases x₂ with
              | error e₂ => simp [stripGen] at HG
              | ok p₂ =>
                obtain ⟨out₂, keys₂'⟩ := p₂
                obtain ⟨hout, rfl⟩ : out₁.map stripTime = out₂.map stripTime ∧
                    keys₁' = keys₂' := by simpa [stripGen] using HG
                dsimp only
                have hlen : out₁.length = out₂.length := by
                  have := congrArg List.length hout
                  simpa using this
                rw [hlen]
                exact ih _ _ _ _ _ _ (by simp [hacc, hout])
    · rw [if_neg hlt, if_neg hlt]
      simp [stripOutcome, hacc]

/-- C2: with seeding enabled, the generated sequence is a function of the
seed string, the collection identity, the pre-call collection sizes and the
constraints alone: two runs that differ in their (extraneous) wall-clock
readings produce the same outcome — in particular the identical sequence
of combinations (numbers, keys, accepted nonces) for the identical seed —
so repeated runs with one seed reproduce the batch exactly.  (Each slot's
stream is `rngFromSeed(seed::groupId::totalSestine::nonceBase+nonce)`, a
pure function of that tuple, embedded bit-exactly in `rngFromSeedStream`.) -/
theorem generateForSelectedGroupSeeded_deterministic (st : AppState) (gid : String)
    (countReq : ℕ) (seed : String) (c : Constraints) (rfuel : ℕ) (abortFlag : ℕ → Bool)
    (nowF₁ nowF₂ : ℕ → ℕ) :
    stripOutcome (generateForSelectedGroupSeeded st gid countReq seed c rfuel abortFlag nowF₁).2 =
    stripOutcome (generateForSelectedGroupSeeded st gid countReq seed c rfuel abortFlag nowF₂).2 := by
  unfold generateForSelectedGroupSeeded generateForSelectedGroup
  cases hfind : st.groups.find? (fun g => g.id == gid) with
  | none => rfl
  | some g =>
    dsimp only
    have H := chunkLoop_time abortFlag
      (fun nonceBase nonce => rngFromSeedStream (seedString seed gid (totalSestine st) (nonceBase + nonce)))
      c rfuel (some seed) nowF₁ nowF₂ (max 1 countReq) (max 1 countReq) 0 0 0
      (globalKeys st) [] [] rfl
    cases h1 : chunkLoop abortFlag
        (fun nonceBase nonce => rngFromSeedStream (seedString seed gid (totalSestine st) (nonceBase + nonce)))
        c rfuel (some seed) nowF₁ (max 1 countReq) (max 1 countReq) 0 0 0 (globalKeys st) [] with
    | committed gen₁ =>
      cases h2 : chunkLoop abortFlag
          (fun nonceBase nonce => rngFromSeedStream (seedString seed gid (totalSestine st) (nonceBase + nonce)))
          c rfuel (some seed) nowF₂ (max 1 countReq) (max 1 countReq) 0 0 0 (globalKeys st) [] <;>
        rw [h1, h2] at H <;> simp only [stripOutcome] at H ⊢ <;> exact H
    | noGroup =>
      cases h2 : chunkLoop abortFlag
          (fun nonceBase nonce => rngFromSeedStream (seedString seed gid (totalSestine st) (nonceBase + nonce)))
          c rfuel (some seed) nowF₂ (max 1 countReq) (max 1 countReq) 0 0 0 (globalKeys st) [] <;>
        rw [h1, h2] at H <;> simp only [stripOutcome] at H ⊢ <;> exact H
    | abortedAt k =>
      cases h2 : chunkLoop abortFlag
          (fun nonceBase nonce => rngFromSeedStream (seedString seed gid (totalSestine st) (nonceBase + nonce)))
          c rfuel (some seed) nowF₂ (max 1 countReq) (max 1 countReq) 0 0 0 (globalKeys st) [] <;>
        rw [h1, h2] at H <;> simp only [stripOutcome] at H ⊢ <;> exact H
    | failed e =>
      cases h2 : chunkLoop abortFlag
          (fun nonceBase nonce => rngFromSeedStream (seedString seed gid (totalSestine st) (nonceBase + nonce)))
          c rfuel (some seed) nowF₂ (max 1 countReq) (max 1 countReq) 0 0 0 (globalKeys st) [] <;>
        rw [h1, h2] at H <;> simp only [stripOutcome] at H ⊢ <;> exact H
    | diverged =>
      cases h2 : chunkLoop abortFlag
          (fun nonceBase nonce => rngFromSeedStream (seedString seed gid (totalSestine st) (nonceBase + nonce)))
          c rfuel (some seed) nowF₂ (max 1 countReq) (max 1 countReq) 0 0 0 (globalKeys st) [] <;>
        rw [h1, h2] at H <;> simp only [stripOutcome] at H ⊢ <;> exact H
    | fuelOut =>
      cases h2 : chunkLoop abortFlag
          (fun nonceBase nonce => rngFromSeedStream (seedString seed gid (totalSestine st) (nonceBase + nonce)))
          c rfuel (some seed) nowF₂ (max 1 countReq) (max 1 countReq) 0 0 0 (globalKeys st) [] <;>
        rw [h1, h2] at H <;> simp only [stripOutcome] at H ⊢ <;> exact H
